import Mathlib

/-!
The crashcollector upload handler and `sendMail`: a shallow embedding of `src/main.go`.

* Go `string` values are Lean strings, a Go `[]byte` is a list of naturals
  below 256, `int64` values are integers taken modulo `2 ^ 64` where the
  source converts them to `uint64`.
* A Go `map` is a list of key/value pairs with the keys in the (arbitrary)
  order in which `range` visits them.
* The collaborators reached through imports (the SMTP library, the MIME
  table) are a record of functions, `Env`, and every call that `sendMail`
  makes on them or on a logger is appended to a trace of `Event`s.
* The two `zap` loggers of the source are values of `Logger`: the
  package-level `logger` that `sendMail` uses, which is never assigned, and
  the local `logger` of `main` that the handler uses.  A logging call on the
  zero value panics; a panic ends the run, which `State.panicked` and
  `Outcome.panicked` record.
-/

namespace CrashCollector

/-! ## Errors -/

/-- Go `error` values: a plain error, or the `wrapError` that `fmt.Errorf`
builds for a `%w` verb (its full message and the wrapped error). -/
inductive GoError where
  | errorString (msg : String)
  | wrapError (msg : String) (err : GoError)
  deriving DecidableEq, Repr

namespace GoError

/-- The `Error()` method. -/
def Error : GoError → String
  | errorString msg => msg
  | wrapError msg _ => msg

/-- The `Unwrap()` method, as used by `errors.Unwrap`. -/
def Unwrap : GoError → Option GoError
  | errorString _ => none
  | wrapError _ err => some err

end GoError

/-- The call `fmt.Errorf(tag + "%w", err)` for a literal `tag`. -/
def Errorf (tag : String) (err : GoError) : GoError :=
  GoError.wrapError (tag ++ err.Error) err

/-! ## `encoding/binary`, `encoding/hex`, `strings` -/

/-- The loop of `binary.AppendUvarint`: while `x >= 0x80` append
`byte(x)|0x80` and shift `x` right by 7, then append `byte(x)`.  The first
argument bounds the number of iterations. -/
def uvarintLoop : Nat → List Nat → Nat → List Nat
  | 0, buf, x => buf ++ [x % 256]
  | fuel + 1, buf, x =>
    if 0x80 ≤ x then uvarintLoop fuel (buf ++ [(x % 256) ||| 0x80]) (x >>> 7)
    else buf ++ [x % 256]

/-- The function `binary.AppendUvarint` on a `uint64`; ten iterations cover
every value below `2 ^ 64` (`binary.MaxVarintLen64`). -/
def AppendUvarint (buf : List Nat) (x : Nat) : List Nat :=
  uvarintLoop 10 buf x

/-- The function `binary.AppendVarint`: `ux := uint64(x) << 1`, complemented
when `x < 0`, then `AppendUvarint`. -/
def AppendVarint (buf : List Nat) (x : Int) : List Nat :=
  let ux := (x % 2 ^ 64).toNat <<< 1 % 2 ^ 64
  let ux := if x < 0 then 2 ^ 64 - 1 - ux else ux
  AppendUvarint buf ux

/-- The digit table of `encoding/hex`. -/
def hextable : List Char := "0123456789abcdef".toList

/-- The function `hex.EncodeToString`: `hextable[v>>4]` then
`hextable[v&0x0f]` for every byte `v`. -/
def EncodeToString (src : List Nat) : String :=
  ⟨src.flatMap fun v => [hextable.getD (v >>> 4) '0', hextable.getD (v &&& 0x0f) '0']⟩

/-- The function `strings.ToUpper`, on the ASCII letters. -/
def ToUpper (s : String) : String := ⟨s.data.map Char.toUpper⟩

/-- The slice expression `s[0:hi]` on a slice `s` whose backing array holds
the bytes `spare` after the end of `s`: the bound is the capacity
`len(s) + len(spare)`, past it the expression panics (`none`). -/
def sliceTo (s spare : List Nat) (hi : Nat) : Option (List Nat) :=
  if hi ≤ s.length + spare.length then some ((s ++ spare).take hi) else none

/-- The submission ID of the upload handler (`main.go`, line 140) for the
Unix time `now`, the value `r` of `rand.Int63()` and the bytes `spare` that
follow the encoded `r` in its backing array. -/
def uploadID (now r : Int) (spare : List Nat) : Option String :=
  match sliceTo (AppendVarint [] r) spare 4 with
  | none => none
  | some rnd => some (ToUpper (EncodeToString (AppendVarint [] now ++ rnd)))

/-! ## `path/filepath` -/

/-- The loop of `filepath.Ext`, run over the reversed path: stop with no
extension at a separator, return the suffix that starts at the first dot
met. -/
def extScan : List Char → List Char → List Char
  | [], _ => []
  | c :: rest, suffix =>
    if c = '/' then []
    else if c = '.' then c :: suffix
    else extScan rest (c :: suffix)

/-- The function `filepath.Ext`. -/
def Ext (path : String) : String := ⟨extScan path.data.reverse []⟩

/-! ## Data model -/

/-- The constant `template`. -/
def template : String := "A crash report has been submitted!"

/-- The struct `Config`. -/
structure Config where
  Bind : String
  MailFrom : String
  MailTo : String
  MailPassword : String
  MailSubject : String
  MailHost : String
  MailPort : Int
  deriving DecidableEq, Repr

/-- The fields of `mail.SMTPServer` that `sendMail` sets (timeouts in
seconds). -/
structure SMTPServer where
  Host : String
  Port : Int
  Username : String
  Password : String
  STARTTLS : Bool
  KeepAlive : Bool
  ConnectTimeout : Nat
  SendTimeout : Nat
  InsecureSkipVerify : Bool
  deriving DecidableEq, Repr

/-- The client returned by a successful `server.Connect()`. -/
structure SMTPClient where
  server : SMTPServer
  deriving DecidableEq, Repr

/-- The struct `mail.File`. -/
structure MailFile where
  FilePath : String
  Name : String
  Data : List Nat
  MimeType : String
  Inline : Bool
  deriving DecidableEq, Repr

/-- The message built through `mail.NewMSG()` and its setters. -/
structure Email where
  From : String
  To : List String
  Subject : String
  Attachments : List MailFile
  Body : String
  deriving DecidableEq, Repr

/-- An opened `multipart.File`: the outcome of `io.ReadAll` on it. -/
structure OpenedFile where
  ReadAll : Except GoError (List Nat)

/-- A `multipart.FileHeader`: the declared filename and the outcome of
`Open()`. -/
structure FileHeader where
  Filename : String
  Open : Except GoError OpenedFile

/-- A `multipart.Form`: the text fields and the file fields. -/
structure Form where
  Value : List (String × List String)
  File : List (String × List FileHeader)

/-- The calls that leave `sendMail` and the upload handler. -/
inductive Event where
  | connect (server : SMTPServer)
  | readFile (entry : FileHeader)
  | warn (msg filename : String) (err : GoError)
  | attach (file : MailFile)
  | send (email : Email) (client : SMTPClient)
  | logError (msg : String) (err : GoError)

/-- The collaborators of `sendMail`: `server.Connect()`,
`mime.TypeByExtension`, the `Error` field the mail library leaves on a
composed message, and `email.Send`. -/
structure Env where
  Connect : SMTPServer → Except GoError SMTPClient
  TypeByExtension : String → String
  EmailError : Email → Option GoError
  Send : Email → SMTPClient → Option GoError

/-- A `zap.Logger` value: the zero value of the struct, or a logger built by
a constructor such as `zap.NewProduction()`. -/
inductive Logger where
  | zero
  | built
  deriving DecidableEq, Repr

/-- Whether a logging method (`Warn`, `Error`) returns on the logger: the
zero value has a nil core, which the method dereferences, so the call
panics. -/
def Logger.returns : Logger → Bool
  | Logger.zero => false
  | Logger.built => true

/-- The package-level `var logger zap.Logger` (`main.go`, line 119), the
logger of `sendMail`.  Nothing assigns it: `logger, _ := zap.NewProduction()`
in `main` (line 123) declares a local variable of the same name. -/
def logger : Logger := Logger.zero

/-- The local `logger` of `main` (line 123), the logger of the upload
handler. -/
def localLogger : Logger := Logger.built

/-- The message under construction, the calls made so far, and whether a
panic has ended the run (after which no further statement is executed). -/
structure State where
  email : Email
  trace : List Event
  panicked : Bool

/-! ## `sendMail` -/

/-- The function `readFile`. -/
def readFile (entry : FileHeader) : Except GoError (List Nat) :=
  match entry.Open with
  | .error err => .error err
  | .ok file => file.ReadAll

/-- The conversion `[]byte(content)`. -/
def bytesOf (content : String) : List Nat :=
  content.data.flatMap fun c => (String.utf8EncodeChar c).map UInt8.toNat

/-- The call `mail.NewMSG()`. -/
def NewMSG : Email := ⟨"", [], "", [], ""⟩

/-- The call `email.Attach(file)`. -/
def State.Attach (st : State) (file : MailFile) : State :=
  { st with
    email := { st.email with Attachments := st.email.Attachments ++ [file] }
    trace := st.trace ++ [Event.attach file] }

/-- The body of the inner loop over the entries of one file field
(`main.go`, lines 69 to 88).  When the read fails the body calls
`logger.Warn` on the package-level logger and would then `continue`; the
run goes on only if that call returns. -/
def attachEntry (env : Env) (field : String) (st : State) (entry : FileHeader) : State :=
  if st.panicked then st
  else
    let name := entry.Filename
    let name := if name = "" then field else name
    let st := { st with trace := st.trace ++ [Event.readFile entry] }
    match readFile entry with
    | .error err =>
      { st with
        trace := st.trace ++ [Event.warn "could not open file" name err]
        panicked := !logger.returns }
    | .ok data =>
      let ext := env.TypeByExtension (Ext name)
      let ext := if ext = "" then "text/plain" else ext
      st.Attach { FilePath := name, Name := name, Data := data, MimeType := ext, Inline := false }

/-- The body of the loop over the text fields (`main.go`, lines 93 to
104). -/
def attachValue (st : State) (kv : String × List String) : State :=
  if st.panicked then st
  else
    let content := kv.2.foldl (fun content line => content ++ line) ""
    st.Attach
      { FilePath := kv.1 ++ ".txt", Name := kv.1 ++ ".txt", Data := bytesOf content,
        MimeType := "text/plain", Inline := true }

/-- The server value `sendMail` connects with (`main.go`, lines 46 to 55). -/
def smtpServer (config : Config) : SMTPServer :=
  { Host := config.MailHost, Port := config.MailPort, Username := config.MailFrom,
    Password := config.MailPassword, STARTTLS := true, KeepAlive := false,
    ConnectTimeout := 10, SendTimeout := 10, InsecureSkipVerify := true }

/-- The message before the loops (`main.go`, lines 62 to 65). -/
def envelope (config : Config) (id : String) : Email :=
  { NewMSG with
    From := "Crash collector <" ++ config.MailFrom ++ ">"
    To := [config.MailTo]
    Subject := "[" ++ id ++ "] " ++ config.MailSubject }

/-- The two attachment loops of `sendMail` (`main.go`, lines 67 to 105). -/
def attachLoops (env : Env) (form : Form) (st : State) : State :=
  let st := form.File.foldl (fun st fh => fh.2.foldl (attachEntry env fh.1) st) st
  form.Value.foldl attachValue st

/-- What a call of `sendMail` leaves: the calls it made and either the
returned error (`none` for `nil`, with `panicked = false`) or a panic
(`panicked = true`, nothing is returned). -/
structure Outcome where
  err : Option GoError
  trace : List Event
  panicked : Bool

/-- The function `sendMail`. -/
def sendMail (env : Env) (config : Config) (form : Form) (id : String) : Outcome :=
  let server := smtpServer config
  match env.Connect server with
  | .error err => ⟨some (Errorf "connection error: " err), [Event.connect server], false⟩
  | .ok smtpClient =>
    let st := attachLoops env form ⟨envelope config id, [Event.connect server], false⟩
    if st.panicked then ⟨none, st.trace, true⟩
    else
      let email := { st.email with Body := template }
      match env.EmailError email with
      | some err => ⟨some (Errorf "email error: " err), st.trace, false⟩
      | none =>
        match env.Send email smtpClient with
        | some err =>
          ⟨some (Errorf "send error: " err), st.trace ++ [Event.send email smtpClient], false⟩
        | none => ⟨none, st.trace ++ [Event.send email smtpClient], false⟩

/-! ## The upload handler -/

/-- What the handler writes: the status code and the body. -/
structure Response where
  status : Nat
  body : String
  deriving DecidableEq, Repr

/-- The function `http.Error`: the status code, and the message followed by
a newline. -/
def httpError (msg : String) (code : Nat) : Response := ⟨code, msg ++ "\n"⟩

/-- The message sent for every failure of `sendMail`. -/
def failureMessage : String := "failed submitting crash report because of a server error"

/-- The handler from the generated ID on (`main.go`, lines 142 to 148): the
response written and the calls made, or `none` when a panic ends the handler
before it writes anything. -/
def respond (env : Env) (config : Config) (form : Form) (id : String) :
    Option (Response × List Event) :=
  let out := sendMail env config form id
  if out.panicked then none
  else
    match out.err with
    | some err =>
      if localLogger.returns then
        some (httpError failureMessage 500,
          out.trace ++ [Event.logError "sending error failed" err])
      else none
    | none => some (⟨200, id⟩, out.trace)

/-- The handler of `/upload` (`main.go`, lines 134 to 149) on the outcome
`parsed` of `ParseMultipartForm`; `none` is a panic: of the slice expression
in the ID, or inside `sendMail`. -/
def uploadHandler (env : Env) (config : Config) (parsed : Except GoError Form)
    (now r : Int) (spare : List Nat) : Option (Response × List Event) :=
  match parsed with
  | .error err => some (httpError ("body parse error: " ++ err.Error) 400, [])
  | .ok form =>
    match uploadID now r spare with
    | none => none
    | some id => respond env config form id

/-! ## Observations on a trace -/

/-- The files handed to `email.Attach`, in call order. -/
def attached (trace : List Event) : List MailFile :=
  trace.filterMap fun
    | Event.attach file => some file
    | _ => none

/-- The messages handed to `email.Send`. -/
def sent (trace : List Event) : List Email :=
  trace.filterMap fun
    | Event.send email _ => some email
    | _ => none

/-- The entries handed to `readFile`. -/
def reads (trace : List Event) : List FileHeader :=
  trace.filterMap fun
    | Event.readFile entry => some entry
    | _ => none

/-- Whether `readFile` returns an error for the entry. -/
def readFails (entry : FileHeader) : Bool :=
  match readFile entry with
  | .error _ => true
  | .ok _ => false

/-- All file entries of a form, field by field. -/
def entries (form : Form) : List FileHeader := form.File.flatMap Prod.snd

/-! ## Auxiliary definitions for the statements -/

/-- The file that one pass of the inner loop hands to `email.Attach`, if
any. -/
def entryFile (env : Env) (field : String) (entry : FileHeader) : Option MailFile :=
  (attached (attachEntry env field ⟨NewMSG, [], false⟩ entry).trace).head?

/-- The file that one pass of the text-field loop hands to
`email.Attach`. -/
def valueFile (kv : String × List String) : MailFile :=
  { FilePath := kv.1 ++ ".txt", Name := kv.1 ++ ".txt",
    Data := bytesOf (kv.2.foldl (fun content line => content ++ line) ""),
    MimeType := "text/plain", Inline := true }

/-- The display name of an entry: its declared filename, or the field name
when that is empty. -/
def displayName (field : String) (entry : FileHeader) : String :=
  if entry.Filename = "" then field else entry.Filename

/-- The message as `sendMail` has composed it when it checks
`email.Error`: the envelope, the attachments of the two loops, the fixed
body. -/
def composed (env : Env) (config : Config) (form : Form) (id : String) : Email :=
  { (attachLoops env form
      ⟨envelope config id, [Event.connect (smtpServer config)], false⟩).email with
    Body := template }

/-- The number a uvarint byte sequence stands for: seven bits per byte, the
low group first (the decoding of `binary.Uvarint`). -/
def uvarintValue : List Nat → Nat
  | [] => 0
  | b :: rest => b % 128 + 128 * uvarintValue rest

/-- The characters of an uppercase hexadecimal string. -/
def upperHex : List Char := "0123456789ABCDEF".toList

/-! ## Sample inputs -/

/-- Collaborators that accept everything; the MIME table knows `.png` only. -/
def envPng : Env :=
  { Connect := fun server => .ok ⟨server⟩
    TypeByExtension := fun ext => if ext = ".png" then "image/png" else ""
    EmailError := fun _ => none
    Send := fun _ _ => none }

/-- The default configuration with a password. -/
def sampleConfig : Config :=
  { Bind := ":3000", MailFrom := "crash@strimertul.stream", MailTo := "crash@strimertul.stream",
    MailPassword := "secret", MailSubject := "Crash report submitted", MailHost := "uchu.moe",
    MailPort := 587 }

/-- One text field with two values, one file field with a readable and an
unreadable entry. -/
def sampleForm : Form :=
  { Value := [("foo", ["a", "b"])]
    File := [("log", [⟨"crash.png", .ok ⟨.ok [1, 2]⟩⟩,
      ⟨"core.dmp", .error (.errorString "open: no such file")⟩])] }

/-- One text field with two values and one file field with a readable
entry. -/
def readableForm : Form :=
  { Value := [("foo", ["a", "b"])]
    File := [("log", [⟨"crash.png", .ok ⟨.ok [1, 2]⟩⟩])] }

/-- Collaborators whose SMTP relay refuses the connection. -/
def envDown : Env :=
  { envPng with Connect := fun _ => .error (.errorString "dial tcp: connection refused") }

/-- Collaborators whose SMTP relay refuses the message. -/
def envRejecting : Env :=
  { envPng with Send := fun _ _ => some (.errorString "550 mailbox unavailable") }

/-- The submission without files and without fields. -/
def emptyForm : Form := { Value := [], File := [] }

/-! ## The attachment loops -/

theorem attached_append (a b : List Event) : attached (a ++ b) = attached a ++ attached b := by
  simp [attached, List.filterMap_append]

theorem sent_append (a b : List Event) : sent (a ++ b) = sent a ++ sent b := by
  simp [sent, List.filterMap_append]

theorem logger_panics : logger.returns = false := rfl

theorem attachEntry_of_panicked (env : Env) (field : String) (st : State) (entry : FileHeader)
    (h : st.panicked = true) : attachEntry env field st entry = st := by
  simp [attachEntry, h]

theorem attachValue_of_panicked (st : State) (kv : String × List String)
    (h : st.panicked = true) : attachValue st kv = st := by
  simp [attachValue, h]

theorem entryFile_ok (env : Env) (field : String) (entry : FileHeader) (data : List Nat)
    (h : readFile entry = .ok data) :
    entryFile env field entry = some
      { FilePath := displayName field entry, Name := displayName field entry, Data := data,
        MimeType := if env.TypeByExtension (Ext (displayName field entry)) = "" then "text/plain"
          else env.TypeByExtension (Ext (displayName field entry)),
        Inline := false } := by
  simp [entryFile, attachEntry, h, State.Attach, attached, displayName]

theorem entryFile_error (env : Env) (field : String) (entry : FileHeader) (err : GoError)
    (h : readFile entry = .error err) : entryFile env field entry = none := by
  simp [entryFile, attachEntry, h, attached]

theorem attachEntry_attached (env : Env) (field : String) (st : State) (entry : FileHeader)
    (hst : st.panicked = false) :
    attached (attachEntry env field st entry).trace
      = attached st.trace ++ (entryFile env field entry).toList := by
  cases h : readFile entry with
  | error err =>
    rw [entryFile_error env field entry err h]
    simp [attachEntry, hst, h, attached_append, attached]
  | ok data =>
    rw [entryFile_ok env field entry data h]
    simp [attachEntry, hst, h, State.Attach, attached_append, attached, displayName]

/-- After a pass of the inner loop the run has panicked exactly when the
read failed. -/
theorem attachEntry_panicked (env : Env) (field : String) (st : State) (entry : FileHeader)
    (hst : st.panicked = false) :
    (attachEntry env field st entry).panicked = readFails entry := by
  cases h : readFile entry <;>
    simp [attachEntry, hst, h, State.Attach, readFails, logger_panics]

theorem attachEntry_sent (env : Env) (field : String) (st : State) (entry : FileHeader) :
    sent (attachEntry env field st entry).trace = sent st.trace := by
  cases hst : st.panicked
  · cases h : readFile entry <;> simp [attachEntry, hst, h, State.Attach, sent_append, sent]
  · rw [attachEntry_of_panicked env field st entry hst]

theorem attachValue_attached (st : State) (kv : String × List String)
    (hst : st.panicked = false) :
    attached (attachValue st kv).trace = attached st.trace ++ [valueFile kv]
      ∧ (attachValue st kv).panicked = false := by
  simp [attachValue, hst, State.Attach, attached_append, attached, valueFile]

theorem attachValue_sent (st : State) (kv : String × List String) :
    sent (attachValue st kv).trace = sent st.trace := by
  cases hst : st.panicked
  · simp [attachValue, hst, State.Attach, sent_append, sent]
  · rw [attachValue_of_panicked st kv hst]

theorem foldl_attachEntry_of_panicked (env : Env) (field : String) (hs : List FileHeader)
    (st : State) (h : st.panicked = true) : hs.foldl (attachEntry env field) st = st := by
  induction hs with
  | nil => rfl
  | cons e rest ih => rw [List.foldl_cons, attachEntry_of_panicked env field st e h, ih]

theorem foldl_attachValue_of_panicked (vals : List (String × List String)) (st : State)
    (h : st.panicked = true) : vals.foldl attachValue st = st := by
  induction vals with
  | nil => rfl
  | cons kv rest ih => rw [List.foldl_cons, attachValue_of_panicked st kv h, ih]

/-- The inner loop over entries that are all readable. -/
theorem foldl_attachEntry_readable (env : Env) (field : String) (hs : List FileHeader)
    (st : State) (hst : st.panicked = false) (hr : ∀ e ∈ hs, readFails e = false) :
    (hs.foldl (attachEntry env field) st).panicked = false
      ∧ attached (hs.foldl (attachEntry env field) st).trace
        = attached st.trace ++ hs.filterMap (entryFile env field) := by
  induction hs generalizing st with
  | nil => simp [hst]
  | cons e rest ih =>
    have he : (attachEntry env field st e).panicked = false := by
      rw [attachEntry_panicked env field st e hst]
      exact hr e (List.mem_cons_self _ _)
    obtain ⟨h1, h2⟩ := ih (attachEntry env field st e) he
      (fun e2 h2 => hr e2 (List.mem_cons_of_mem _ h2))
    refine ⟨h1, ?_⟩
    rw [List.foldl_cons, h2, attachEntry_attached env field st e hst, List.filterMap_cons]
    cases entryFile env field e <;> simp

/-- The loop over file fields whose entries are all readable. -/
theorem foldl_fields_readable (env : Env) (fields : List (String × List FileHeader))
    (st : State) (hst : st.panicked = false)
    (hr : ∀ e ∈ fields.flatMap Prod.snd, readFails e = false) :
    (fields.foldl (fun st fh => fh.2.foldl (attachEntry env fh.1) st) st).panicked = false
      ∧ attached (fields.foldl (fun st fh => fh.2.foldl (attachEntry env fh.1) st) st).trace
        = attached st.trace ++ fields.flatMap fun fh => fh.2.filterMap (entryFile env fh.1) := by
  induction fields generalizing st with
  | nil => simp [hst]
  | cons fh rest ih =>
    obtain ⟨h1, h2⟩ := foldl_attachEntry_readable env fh.1 fh.2 st hst
      (fun e he => hr e (by simp [List.flatMap_cons, he]))
    obtain ⟨h3, h4⟩ := ih (fh.2.foldl (attachEntry env fh.1) st) h1
      (fun e he => hr e (by
        rw [List.flatMap_cons]
        exact List.mem_append_right _ he))
    refine ⟨h3, ?_⟩
    rw [List.foldl_cons, h4, h2]
    simp [List.flatMap_cons]

/-- The loop over the text fields, started in a run that has not
panicked. -/
theorem foldl_attachValue_attached (vals : List (String × List String)) (st : State)
    (hst : st.panicked = false) :
    (vals.foldl attachValue st).panicked = false
      ∧ attached (vals.foldl attachValue st).trace = attached st.trace ++ vals.map valueFile := by
  induction vals generalizing st with
  | nil => simp [hst]
  | cons kv rest ih =>
    obtain ⟨h1, h2⟩ := attachValue_attached st kv hst
    obtain ⟨h3, h4⟩ := ih (attachValue st kv) h2
    refine ⟨h3, ?_⟩
    rw [List.foldl_cons, h4, h1]
    simp

/-- Whatever the run, a file handed to `email.Attach` in the inner loop is
the file of one of the entries. -/
theorem foldl_attachEntry_mem (env : Env) (field : String) (hs : List FileHeader)
    (st : State) (a : MailFile) (h : a ∈ attached (hs.foldl (attachEntry env field) st).trace) :
    a ∈ attached st.trace ∨ ∃ e ∈ hs, entryFile env field e = some a := by
  induction hs generalizing st with
  | nil => exact Or.inl h
  | cons e rest ih =>
    rw [List.foldl_cons] at h
    rcases ih (attachEntry env field st e) h with h1 | ⟨e2, he2, hf⟩
    · cases hst : st.panicked
      · rw [attachEntry_attached env field st e hst, List.mem_append] at h1
        rcases h1 with h1 | h1
        · exact Or.inl h1
        · refine Or.inr ⟨e, List.mem_cons_self _ _, ?_⟩
          cases hf : entryFile env field e with
          | none => simp [hf] at h1
          | some b =>
            simp only [hf, Option.toList, List.mem_singleton] at h1
            rw [h1]
      · rw [attachEntry_of_panicked env field st e hst] at h1
        exact Or.inl h1
    · exact Or.inr ⟨e2, List.mem_cons_of_mem _ he2, hf⟩

theorem foldl_fields_mem (env : Env) (fields : List (String × List FileHeader))
    (st : State) (a : MailFile)
    (h : a ∈ attached
      (fields.foldl (fun st fh => fh.2.foldl (attachEntry env fh.1) st) st).trace) :
    a ∈ attached st.trace ∨ ∃ fh ∈ fields, ∃ e ∈ fh.2, entryFile env fh.1 e = some a := by
  induction fields generalizing st with
  | nil => exact Or.inl h
  | cons fh rest ih =>
    rw [List.foldl_cons] at h
    rcases ih _ h with h1 | ⟨fh2, hfh2, e, he, hf⟩
    · rcases foldl_attachEntry_mem env fh.1 fh.2 st a h1 with h2 | ⟨e, he, hf⟩
      · exact Or.inl h2
      · exact Or.inr ⟨fh, List.mem_cons_self _ _, e, he, hf⟩
    · exact Or.inr ⟨fh2, List.mem_cons_of_mem _ hfh2, e, he, hf⟩

theorem foldl_attachValue_mem (vals : List (String × List String)) (st : State) (a : MailFile)
    (h : a ∈ attached (vals.foldl attachValue st).trace) :
    a ∈ attached st.trace ∨ ∃ kv ∈ vals, a = valueFile kv := by
  cases hst : st.panicked
  · rw [(foldl_attachValue_attached vals st hst).2, List.mem_append, List.mem_map] at h
    rcases h with h | ⟨kv, hkv, rfl⟩
    · exact Or.inl h
    · exact Or.inr ⟨kv, hkv, rfl⟩
  · rw [foldl_attachValue_of_panicked vals st hst] at h
    exact Or.inl h

theorem foldl_attachEntry_sent (env : Env) (field : String) (hs : List FileHeader)
    (st : State) : sent (hs.foldl (attachEntry env field) st).trace = sent st.trace := by
  induction hs generalizing st with
  | nil => simp
  | cons e rest ih => rw [List.foldl_cons, ih, attachEntry_sent]

theorem foldl_fields_sent (env : Env) (fields : List (String × List FileHeader))
    (st : State) :
    sent (fields.foldl (fun st fh => fh.2.foldl (attachEntry env fh.1) st) st).trace
      = sent st.trace := by
  induction fields generalizing st with
  | nil => simp
  | cons fh rest ih => rw [List.foldl_cons, ih, foldl_attachEntry_sent]

theorem foldl_attachValue_sent (vals : List (String × List String)) (st : State) :
    sent (vals.foldl attachValue st).trace = sent st.trace := by
  induction vals generalizing st with
  | nil => simp
  | cons kv rest ih => rw [List.foldl_cons, ih, attachValue_sent]

theorem attachLoops_readable (env : Env) (form : Form) (st : State)
    (hst : st.panicked = false) (hr : ∀ e ∈ entries form, readFails e = false) :
    (attachLoops env form st).panicked = false
      ∧ attached (attachLoops env form st).trace
        = attached st.trace
          ++ (form.File.flatMap fun fh => fh.2.filterMap (entryFile env fh.1))
          ++ form.Value.map valueFile := by
  obtain ⟨h1, h2⟩ := foldl_fields_readable env form.File st hst hr
  obtain ⟨h3, h4⟩ := foldl_attachValue_attached form.Value _ h1
  exact ⟨h3, by rw [attachLoops, h4, h2]⟩

theorem attachLoops_mem (env : Env) (form : Form) (st : State) (a : MailFile)
    (h : a ∈ attached (attachLoops env form st).trace) :
    a ∈ attached st.trace ∨ (∃ fh ∈ form.File, ∃ e ∈ fh.2, entryFile env fh.1 e = some a)
      ∨ ∃ kv ∈ form.Value, a = valueFile kv := by
  rcases foldl_attachValue_mem form.Value _ a h with h1 | h1
  · rcases foldl_fields_mem env form.File st a h1 with h2 | h2
    · exact Or.inl h2
    · exact Or.inr (Or.inl h2)
  · exact Or.inr (Or.inr h1)

theorem attachLoops_sent (env : Env) (form : Form) (st : State) :
    sent (attachLoops env form st).trace = sent st.trace := by
  simp [attachLoops, foldl_attachValue_sent, foldl_fields_sent]

theorem sent_loops (env : Env) (form : Form) (email : Email) (server : SMTPServer) :
    sent (attachLoops env form ⟨email, [Event.connect server], false⟩).trace = [] := by
  rw [attachLoops_sent]
  rfl

/-- The function `sendMail` after a successful connect, in terms of the
loops and the composed message. -/
theorem sendMail_ok (env : Env) (config : Config) (form : Form) (id : String)
    (client : SMTPClient) (h : env.Connect (smtpServer config) = .ok client) :
    sendMail env config form id =
      if (attachLoops env form
          ⟨envelope config id, [Event.connect (smtpServer config)], false⟩).panicked then
        ⟨none, (attachLoops env form
          ⟨envelope config id, [Event.connect (smtpServer config)], false⟩).trace, true⟩
      else
        match env.EmailError (composed env config form id) with
        | some err => ⟨some (Errorf "email error: " err), (attachLoops env form
            ⟨envelope config id, [Event.connect (smtpServer config)], false⟩).trace, false⟩
        | none =>
          match env.Send (composed env config form id) client with
          | some err => ⟨some (Errorf "send error: " err), (attachLoops env form
              ⟨envelope config id, [Event.connect (smtpServer config)], false⟩).trace
                ++ [Event.send (composed env config form id) client], false⟩
          | none => ⟨none, (attachLoops env form
              ⟨envelope config id, [Event.connect (smtpServer config)], false⟩).trace
                ++ [Event.send (composed env config form id) client], false⟩ := by
  simp only [sendMail, h]
  rfl

/-- The trace of `sendMail` after a successful connect is the trace of the
loops, followed by the send call if there is one; the call has panicked
exactly when the loops have. -/
theorem sendMail_trace_ok (env : Env) (config : Config) (form : Form) (id : String)
    (client : SMTPClient) (h : env.Connect (smtpServer config) = .ok client) :
    (sendMail env config form id).panicked = (attachLoops env form
        ⟨envelope config id, [Event.connect (smtpServer config)], false⟩).panicked
      ∧ ∃ tail, (sendMail env config form id).trace
        = (attachLoops env form
            ⟨envelope config id, [Event.connect (smtpServer config)], false⟩).trace ++ tail
          ∧ attached tail = [] := by
  rw [sendMail_ok env config form id client h]
  cases hp : (attachLoops env form
      ⟨envelope config id, [Event.connect (smtpServer config)], false⟩).panicked
  · cases env.EmailError (composed env config form id) with
    | some e => exact ⟨rfl, [], by simp, rfl⟩
    | none =>
      cases env.Send (composed env config form id) client with
      | some e => exact ⟨rfl, _, rfl, rfl⟩
      | none => exact ⟨rfl, _, rfl, rfl⟩
  · exact ⟨rfl, [], by simp, rfl⟩

/-- Whatever the run, a file that `sendMail` hands to `email.Attach` is the
file of a file entry or the file of a text field. -/
theorem sendMail_attached_mem (env : Env) (config : Config) (form : Form) (id : String)
    (a : MailFile) (h : a ∈ attached (sendMail env config form id).trace) :
    (∃ fh ∈ form.File, ∃ e ∈ fh.2, entryFile env fh.1 e = some a)
      ∨ ∃ kv ∈ form.Value, a = valueFile kv := by
  cases hc : env.Connect (smtpServer config) with
  | error e =>
    simp [sendMail, hc, attached] at h
  | ok client =>
    obtain ⟨_, tail, ht, hnil⟩ := sendMail_trace_ok env config form id client hc
    rw [ht, attached_append, hnil, List.append_nil] at h
    rcases attachLoops_mem env form _ a h with h1 | h1
    · simp [attached] at h1
    · exact h1

/-- When no file entry fails to be read, `sendMail` does not panic and
hands to `email.Attach` the files of all entries, then the files of all text
fields. -/
theorem sendMail_attached_readable (env : Env) (config : Config) (form : Form) (id : String)
    (client : SMTPClient) (h : env.Connect (smtpServer config) = .ok client)
    (hr : ∀ e ∈ entries form, readFails e = false) :
    (sendMail env config form id).panicked = false
      ∧ attached (sendMail env config form id).trace
        = (form.File.flatMap fun fh => fh.2.filterMap (entryFile env fh.1))
          ++ form.Value.map valueFile := by
  obtain ⟨hp, tail, ht, hnil⟩ := sendMail_trace_ok env config form id client h
  obtain ⟨h1, h2⟩ := attachLoops_readable env form
    ⟨envelope config id, [Event.connect (smtpServer config)], false⟩ rfl hr
  refine ⟨hp.trans h1, ?_⟩
  rw [ht, attached_append, hnil, h2]
  simp [attached]

theorem entryFile_inline (env : Env) (field : String) (entry : FileHeader) (a : MailFile)
    (h : entryFile env field entry = some a) : a.Inline = false := by
  cases hr : readFile entry with
  | error err => simp [entryFile_error env field entry err hr] at h
  | ok data =>
    rw [entryFile_ok env field entry data hr] at h
    cases h
    rfl

theorem fileFiles_inline (env : Env) (fields : List (String × List FileHeader)) (a : MailFile)
    (h : a ∈ fields.flatMap fun fh => fh.2.filterMap (entryFile env fh.1)) :
    a.Inline = false := by
  simp only [List.mem_flatMap, List.mem_filterMap] at h
  obtain ⟨fh, _, e, _, he⟩ := h
  exact entryFile_inline env fh.1 e a he

theorem foldl_append_data (vs : List String) (acc : String) :
    (vs.foldl (fun content line => content ++ line) acc).data
      = acc.data ++ (vs.map String.data).flatten := by
  induction vs generalizing acc with
  | nil => simp
  | cons v rest ih => simp [ih, String.data_append]

theorem txt_cancel (a b : String) (h : a ++ ".txt" = b ++ ".txt") : a = b := by
  have h2 := congrArg String.data h
  simp only [String.data_append, List.append_left_inj] at h2
  exact String.ext h2

theorem filter_valueFiles_absent (vals : List (String × List String)) (k : String)
    (hk : k ∉ vals.map Prod.fst) :
    (vals.map valueFile).filter (fun a => a.Inline && a.Name == k ++ ".txt") = [] := by
  induction vals with
  | nil => simp
  | cons kv rest ih =>
    simp only [List.map_cons, List.mem_cons, not_or] at hk
    have hne : ¬ (kv.1 ++ ".txt" = k ++ ".txt") := fun h => hk.1 (txt_cancel _ _ h).symm
    have hrest := ih hk.2
    simp [List.filter_cons, valueFile, hne] at hrest ⊢
    exact hrest

theorem filter_valueFiles_present (vals : List (String × List String)) (k : String)
    (vs : List String) (hnd : (vals.map Prod.fst).Nodup) (hm : (k, vs) ∈ vals) :
    (vals.map valueFile).filter (fun a => a.Inline && a.Name == k ++ ".txt")
      = [valueFile (k, vs)] := by
  induction vals with
  | nil => simp at hm
  | cons kv rest ih =>
    simp only [List.map_cons, List.nodup_cons] at hnd
    rcases List.mem_cons.mp hm with heq | htail
    · subst heq
      have hrest := filter_valueFiles_absent rest k hnd.1
      simp [List.filter_cons, valueFile] at hrest ⊢
      exact hrest
    · have hk : k ∈ rest.map Prod.fst := List.mem_map.mpr ⟨(k, vs), htail, rfl⟩
      have hne : ¬ (kv.1 ++ ".txt" = k ++ ".txt") := by
        intro h
        have := txt_cancel _ _ h
        exact hnd.1 (this ▸ hk)
      have := ih hnd.2 htail
      simp [List.filter_cons, valueFile, hne] at this ⊢
      exact this

theorem filter_inline_fileFiles (env : Env) (fields : List (String × List FileHeader))
    (p : MailFile → Bool) :
    (fields.flatMap fun fh => fh.2.filterMap (entryFile env fh.1)).filter
      (fun a => a.Inline && p a) = [] := by
  rw [List.filter_eq_nil_iff]
  intro a ha
  simp [fileFiles_inline env fields a ha]

theorem value_content (vs : List String) :
    vs.foldl (fun content line => content ++ line) "" = ⟨(vs.map String.data).flatten⟩ :=
  String.ext (by simp [foldl_append_data])

theorem attachEntry_ok (env : Env) (field : String) (st : State) (entry : FileHeader)
    (data : List Nat) (h : readFile entry = .ok data) (hst : st.panicked = false) :
    attached (attachEntry env field st entry).trace = attached st.trace ++
      [{ FilePath := displayName field entry, Name := displayName field entry, Data := data,
         MimeType := if env.TypeByExtension (Ext (displayName field entry)) = "" then "text/plain"
           else env.TypeByExtension (Ext (displayName field entry)),
         Inline := false }] := by
  rw [attachEntry_attached env field st entry hst, entryFile_ok env field entry data h]
  rfl

theorem Ext_png (stem : String) : Ext (stem ++ ".png") = ".png" := by
  apply String.ext
  simp [Ext, String.data_append, extScan]

/-! ## When `sendMail` panics -/

theorem foldl_attachEntry_panicked (env : Env) (field : String) (hs : List FileHeader)
    (st : State) (hst : st.panicked = false) :
    (hs.foldl (attachEntry env field) st).panicked = hs.any readFails := by
  induction hs generalizing st with
  | nil => simp [hst]
  | cons e rest ih =>
    rw [List.foldl_cons, List.any_cons]
    cases he : readFails e
    · rw [ih _ ((attachEntry_panicked env field st e hst).trans he)]
      simp
    · rw [foldl_attachEntry_of_panicked env field rest _
        ((attachEntry_panicked env field st e hst).trans he),
        attachEntry_panicked env field st e hst, he]
      simp

theorem foldl_fields_of_panicked (env : Env) (fields : List (String × List FileHeader))
    (st : State) (h : st.panicked = true) :
    fields.foldl (fun st fh => fh.2.foldl (attachEntry env fh.1) st) st = st := by
  induction fields with
  | nil => rfl
  | cons fh rest ih => rw [List.foldl_cons, foldl_attachEntry_of_panicked env fh.1 fh.2 st h, ih]

theorem foldl_fields_panicked (env : Env) (fields : List (String × List FileHeader))
    (st : State) (hst : st.panicked = false) :
    (fields.foldl (fun st fh => fh.2.foldl (attachEntry env fh.1) st) st).panicked
      = (fields.flatMap Prod.snd).any readFails := by
  induction fields generalizing st with
  | nil => simp [hst]
  | cons fh rest ih =>
    rw [List.foldl_cons, List.flatMap_cons, List.any_append]
    have h1 := foldl_attachEntry_panicked env fh.1 fh.2 st hst
    cases hany : fh.2.any readFails
    · rw [ih _ (h1.trans hany)]
      simp
    · rw [foldl_fields_of_panicked env rest _ (h1.trans hany), h1, hany]
      simp

/-- The loops panic exactly when some file entry fails to be read. -/
theorem attachLoops_panicked (env : Env) (form : Form) (st : State)
    (hst : st.panicked = false) :
    (attachLoops env form st).panicked = (entries form).any readFails := by
  have h1 := foldl_fields_panicked env form.File st hst
  cases hany : (entries form).any readFails
  · exact (foldl_attachValue_attached form.Value _ (h1.trans hany)).1
  · have h2 : (form.File.foldl (fun st fh => fh.2.foldl (attachEntry env fh.1) st) st).panicked
        = true := h1.trans hany
    rw [attachLoops, foldl_attachValue_of_panicked form.Value _ h2]
    exact h2

/-- After a successful connect `sendMail` panics exactly when some file
entry fails to be read, and then it has not called `email.Send`. -/
theorem sendMail_panicked_iff (env : Env) (config : Config) (form : Form) (id : String)
    (client : SMTPClient) (h : env.Connect (smtpServer config) = .ok client) :
    (sendMail env config form id).panicked = (entries form).any readFails
      ∧ ((sendMail env config form id).panicked = true →
          sent (sendMail env config form id).trace = []) := by
  have hp := (sendMail_trace_ok env config form id client h).1
  refine ⟨hp.trans (attachLoops_panicked env form _ rfl), fun hpan => ?_⟩
  rw [hp] at hpan
  rw [sendMail_ok env config form id client h, if_pos hpan]
  exact sent_loops env form _ _

/-- Every error `sendMail` returns carries one of its three tags. -/
theorem sendMail_error_tag (env : Env) (config : Config) (form : Form) (id : String)
    (err : GoError) (h : (sendMail env config form id).err = some err) :
    ∃ e, err = Errorf "connection error: " e ∨ err = Errorf "email error: " e
      ∨ err = Errorf "send error: " e := by
  cases hc : env.Connect (smtpServer config) with
  | error e =>
    simp only [sendMail, hc] at h
    exact ⟨e, Or.inl (Option.some.inj h).symm⟩
  | ok client =>
    rw [sendMail_ok env config form id client hc] at h
    split at h
    · cases h
    · split at h
      · next e _ => exact ⟨e, Or.inr (Or.inl (Option.some.inj h).symm)⟩
      · split at h
        · next e _ => exact ⟨e, Or.inr (Or.inr (Option.some.inj h).symm)⟩
        · cases h

theorem sendMail_error_colon (env : Env) (config : Config) (form : Form) (id : String)
    (err : GoError) (h : (sendMail env config form id).err = some err) :
    ':' ∈ err.Error.data := by
  obtain ⟨e, rfl | rfl | rfl⟩ := sendMail_error_tag env config form id err h <;>
    simp [Errorf, GoError.Error, String.data_append]

/-- The ways through `sendMail` when no file entry fails to be read: the
first failing check among connect, the composed message and send decides
the returned error, and `email.Send` is called only after the first two
checks have passed. -/
theorem sendMail_cases (env : Env) (config : Config) (form : Form) (id : String)
    (hr : ∀ e ∈ entries form, readFails e = false) :
    (sendMail env config form id).panicked = false
      ∧ ((∃ e, env.Connect (smtpServer config) = .error e
          ∧ (sendMail env config form id).err = some (Errorf "connection error: " e)
          ∧ sent (sendMail env config form id).trace = [])
        ∨ (∃ client e, env.Connect (smtpServer config) = .ok client
          ∧ env.EmailError (composed env config form id) = some e
          ∧ (sendMail env config form id).err = some (Errorf "email error: " e)
          ∧ sent (sendMail env config form id).trace = [])
        ∨ (∃ client e, env.Connect (smtpServer config) = .ok client
          ∧ env.EmailError (composed env config form id) = none
          ∧ env.Send (composed env config form id) client = some e
          ∧ (sendMail env config form id).err = some (Errorf "send error: " e)
          ∧ sent (sendMail env config form id).trace = [composed env config form id])
        ∨ (∃ client, env.Connect (smtpServer config) = .ok client
          ∧ env.EmailError (composed env config form id) = none
          ∧ env.Send (composed env config form id) client = none
          ∧ (sendMail env config form id).err = none
          ∧ sent (sendMail env config form id).trace = [composed env config form id])) := by
  cases hc : env.Connect (smtpServer config) with
  | error e =>
    refine ⟨by simp [sendMail, hc], Or.inl ⟨e, rfl, by simp [sendMail, hc], ?_⟩⟩
    simp [sendMail, hc, sent]
  | ok client =>
    have hloops := (attachLoops_readable env form
      ⟨envelope config id, [Event.connect (smtpServer config)], false⟩ rfl hr).1
    rw [sendMail_ok env config form id client hc, hloops]
    simp only [Bool.false_eq_true, if_false]
    cases he : env.EmailError (composed env config form id) with
    | some e =>
      exact ⟨rfl, Or.inr (Or.inl ⟨client, e, rfl, rfl, rfl, sent_loops env form _ _⟩)⟩
    | none =>
      cases hs : env.Send (composed env config form id) client with
      | some e =>
        refine ⟨rfl, Or.inr (Or.inr (Or.inl ⟨client, e, rfl, rfl, hs, rfl, ?_⟩))⟩
        show sent (_ ++ _) = _
        rw [sent_append, sent_loops]
        rfl
      | none =>
        refine ⟨rfl, Or.inr (Or.inr (Or.inr ⟨client, rfl, rfl, hs, rfl, ?_⟩))⟩
        show sent (_ ++ _) = _
        rw [sent_append, sent_loops]
        rfl

/-! ## The claims on `sendMail` -/

/-- C1 fails on the code.  The form `sampleForm` has `N = 2` file entries,
`F = 1` of them unreadable, and `M = 1` text field, so the claim counts
`(2 - 1) + 1 = 2` attachments.  After a successful connect `sendMail`
attaches `crash.png`; the failed read of `core.dmp` then reaches
`logger.Warn` on the package-level logger, which is the zero value, and the
call panics: one file has been attached, the text field never is, and
nothing is sent. -/
theorem attachment_count_failing_input :
    (entries sampleForm).length = 2
      ∧ ((entries sampleForm).filter readFails).length = 1
      ∧ sampleForm.Value.length = 1
      ∧ (sendMail envPng sampleConfig sampleForm "0A").panicked = true
      ∧ attached (sendMail envPng sampleConfig sampleForm "0A").trace
        = [{ FilePath := "crash.png", Name := "crash.png", Data := [1, 2],
             MimeType := "image/png", Inline := false }]
      ∧ (attached (sendMail envPng sampleConfig sampleForm "0A").trace).length ≠ (2 - 1) + 1
      ∧ sent (sendMail envPng sampleConfig sampleForm "0A").trace = [] := by
  decide

/-- When no file entry fails to be read the count is as expected: after a
successful connect `sendMail` returns having made `N + M` calls of
`email.Attach`, `N` of them regular and `M` inline. -/
theorem attachment_count_readable (env : Env) (config : Config) (form : Form) (id : String)
    (client : SMTPClient) (h : env.Connect (smtpServer config) = .ok client)
    (hr : ∀ e ∈ entries form, readFails e = false) :
    (sendMail env config form id).panicked = false
      ∧ (attached (sendMail env config form id).trace).length
        = (entries form).length + form.Value.length := by
  obtain ⟨hp, ha⟩ := sendMail_attached_readable env config form id client h hr
  refine ⟨hp, ?_⟩
  rw [ha, List.length_append, List.length_map]
  congr 1
  have hsome : ∀ (field : String) (hs : List FileHeader),
      (∀ e ∈ hs, readFails e = false) → (hs.filterMap (entryFile env field)).length = hs.length := by
    intro field hs
    induction hs with
    | nil => simp
    | cons e rest ih =>
      intro hall
      have he := hall e (List.mem_cons_self _ _)
      cases hread : readFile e with
      | error err => simp [readFails, hread] at he
      | ok data =>
        rw [List.filterMap_cons, entryFile_ok env field e data hread]
        simp [ih (fun e2 h2 => hall e2 (List.mem_cons_of_mem _ h2))]
  have hfields : ∀ fields : List (String × List FileHeader),
      (∀ e ∈ fields.flatMap Prod.snd, readFails e = false) →
      (fields.flatMap fun fh => fh.2.filterMap (entryFile env fh.1)).length
        = (fields.flatMap Prod.snd).length := by
    intro fields
    induction fields with
    | nil => simp
    | cons fh rest ih =>
      intro hall
      simp only [List.flatMap_cons, List.length_append]
      rw [hsome fh.1 fh.2 (fun e he => hall e (by simp [List.flatMap_cons, he])),
        ih (fun e he => hall e (by
          rw [List.flatMap_cons]
          exact List.mem_append_right _ he))]
  exact hfields form.File hr

/-- C2: the loop over the text fields, in a run that has reached it, hands
to `email.Attach` for a text field `k` with values `vs` (the keys of the
form being distinct) exactly one inline file named `k ++ ".txt"`; its path
and name are `k ++ ".txt"`, its MIME type is `text/plain` and its payload is
the bytes of the values written one after the other, nothing between them.
After a successful connect `sendMail` reaches that loop whenever no file
entry fails to be read, and that file is then its one inline attachment of
that name. -/
theorem text_field_attachment (env : Env) (config : Config) (form : Form) (id : String)
    (client : SMTPClient) (h : env.Connect (smtpServer config) = .ok client)
    (hr : ∀ e ∈ entries form, readFails e = false)
    (hkeys : (form.Value.map Prod.fst).Nodup) (k : String) (vs : List String)
    (hm : (k, vs) ∈ form.Value) :
    (sendMail env config form id).panicked = false
      ∧ (attached (sendMail env config form id).trace).filter
          (fun a => a.Inline && a.Name == k ++ ".txt")
        = [{ FilePath := k ++ ".txt", Name := k ++ ".txt",
             Data := bytesOf ⟨(vs.map String.data).flatten⟩,
             MimeType := "text/plain", Inline := true }]
      ∧ ∀ st : State, st.panicked = false →
          (attached (form.Value.foldl attachValue st).trace).filter
              (fun a => a.Inline && a.Name == k ++ ".txt")
            = (attached st.trace).filter (fun a => a.Inline && a.Name == k ++ ".txt")
              ++ [{ FilePath := k ++ ".txt", Name := k ++ ".txt",
                    Data := bytesOf ⟨(vs.map String.data).flatten⟩,
                    MimeType := "text/plain", Inline := true }] := by
  obtain ⟨hp, ha⟩ := sendMail_attached_readable env config form id client h hr
  have hfile : valueFile (k, vs)
      = ⟨k ++ ".txt", k ++ ".txt", bytesOf ⟨(vs.map String.data).flatten⟩, "text/plain", true⟩ := by
    simp [valueFile, value_content]
  refine ⟨hp, ?_, fun st hst => ?_⟩
  · rw [ha, List.filter_append, filter_inline_fileFiles,
      filter_valueFiles_present form.Value k vs hkeys hm, hfile]
    rfl
  · rw [(foldl_attachValue_attached form.Value st hst).2, List.filter_append,
      filter_valueFiles_present form.Value k vs hkeys hm, hfile]

theorem text_field_attachment_witness :
    (attached (sendMail envPng sampleConfig readableForm "0A").trace).filter
        (fun a => a.Inline && a.Name == "foo" ++ ".txt")
      = [{ FilePath := "foo.txt", Name := "foo.txt", Data := bytesOf "ab",
           MimeType := "text/plain", Inline := true }] :=
  (text_field_attachment envPng sampleConfig readableForm "0A" ⟨smtpServer sampleConfig⟩ rfl
    (by decide) (by decide) "foo" ["a", "b"] (by decide)).2.1

/-- C3: a file entry under field `field` whose read succeeds with bytes `b`
makes the loop body, in a run that has reached it, call `email.Attach`
exactly once, with a file whose name (and path) is the declared filename, or
`field` when that is empty, whose payload is `b` and which is not inline;
that file is among the attachments of `sendMail` after a successful connect
when no entry of the form fails to be read.  In every run, an attachment of
`sendMail` is inline exactly when it is the file of a text field, and not
inline exactly when it is the file of a file entry. -/
theorem file_attachment_shape (env : Env) (config : Config) (form : Form) (id : String)
    (client : SMTPClient) (h : env.Connect (smtpServer config) = .ok client) :
    (∀ field hs entry b, (field, hs) ∈ form.File → entry ∈ hs → readFile entry = .ok b →
      ∃ a, (∀ st : State, st.panicked = false →
              attached (attachEntry env field st entry).trace = attached st.trace ++ [a]
                ∧ (attachEntry env field st entry).panicked = false)
        ∧ ((∀ e ∈ entries form, readFails e = false) →
              a ∈ attached (sendMail env config form id).trace)
        ∧ a.Name = (if entry.Filename = "" then field else entry.Filename)
        ∧ a.FilePath = a.Name ∧ a.Data = b ∧ a.Inline = false)
    ∧ (∀ a ∈ attached (sendMail env config form id).trace,
        (a.Inline = true ↔ ∃ kv ∈ form.Value, a = valueFile kv)
        ∧ (a.Inline = false ↔
            ∃ fh ∈ form.File, ∃ entry ∈ fh.2, entryFile env fh.1 entry = some a)) := by
  constructor
  · intro field hs entry b hf he hread
    refine ⟨_, fun st hst => ⟨attachEntry_ok env field st entry b hread hst, ?_⟩, fun hr => ?_,
      rfl, rfl, rfl, rfl⟩
    · rw [attachEntry_panicked env field st entry hst]
      simp [readFails, hread]
    · rw [(sendMail_attached_readable env config form id client h hr).2]
      refine List.mem_append_left _ (List.mem_flatMap.mpr ⟨(field, hs), hf, ?_⟩)
      exact List.mem_filterMap.mpr ⟨entry, he, entryFile_ok env field entry b hread⟩
  · intro a ha
    rcases sendMail_attached_mem env config form id a ha with hfile | hvalue
    · have hfrom := hfile
      obtain ⟨fh, _, entry, _, hentry⟩ := hfile
      have hin := entryFile_inline env fh.1 entry a hentry
      constructor
      · constructor
        · intro hc
          rw [hin] at hc
          cases hc
        · rintro ⟨kv, _, rfl⟩
          cases hin
      · exact ⟨fun _ => hfrom, fun _ => hin⟩
    · obtain ⟨kv, hkv, rfl⟩ := hvalue
      constructor
      · exact ⟨fun _ => ⟨kv, hkv, rfl⟩, fun _ => rfl⟩
      · constructor
        · intro hc
          cases hc
        · rintro ⟨fh, _, entry, _, he⟩
          exact entryFile_inline env fh.1 entry _ he

theorem file_attachment_shape_witness :
    ∃ a, a ∈ attached (sendMail envPng sampleConfig readableForm "0A").trace
      ∧ a.Name = "crash.png" ∧ a.Data = [1, 2] ∧ a.Inline = false := by
  obtain ⟨a, _, hmem, hname, _, hdata, hinl⟩ :=
    (file_attachment_shape envPng sampleConfig readableForm "0A" ⟨smtpServer sampleConfig⟩ rfl).1
      "log" _ ⟨"crash.png", .ok ⟨.ok [1, 2]⟩⟩ [1, 2] (List.mem_singleton.mpr rfl)
      (List.mem_singleton.mpr rfl) rfl
  exact ⟨a, hmem (by decide), hname, hdata, hinl⟩

/-- C4: for a file entry whose read succeeds and whose declared filename is
not empty (as for every entry of a parsed form: `mime/multipart` stores a
part without filename under `Value`), the loop body, in a run that has
reached it, calls `email.Attach` once, with a file named by the declared
filename whose MIME type is looked up from the extension of the declared
filename: it is the table entry when that is not empty and `text/plain`
otherwise, so never empty.  When the table maps `.png` to `image/png`, a
declared filename that ends in `.png` gives `image/png`; an extension
without a table entry gives `text/plain`, and so does a filename without
extension when the table has nothing for the empty extension. -/
theorem mime_inference (env : Env) (field : String) (entry : FileHeader) (b : List Nat)
    (h : readFile entry = .ok b) (hname : entry.Filename ≠ "") :
    ∃ a, (∀ st : State, st.panicked = false →
            attached (attachEntry env field st entry).trace = attached st.trace ++ [a])
      ∧ a.Name = entry.Filename
      ∧ a.MimeType = (if env.TypeByExtension (Ext entry.Filename) = "" then "text/plain"
          else env.TypeByExtension (Ext entry.Filename))
      ∧ a.MimeType ≠ ""
      ∧ (env.TypeByExtension ".png" = "image/png" →
          (∃ stem, entry.Filename = stem ++ ".png") → a.MimeType = "image/png")
      ∧ (env.TypeByExtension (Ext entry.Filename) = "" → a.MimeType = "text/plain")
      ∧ (env.TypeByExtension "" = "" → Ext entry.Filename = "" →
          a.MimeType = "text/plain") := by
  have hd : displayName field entry = entry.Filename := by
    unfold displayName
    rw [if_neg hname]
  refine ⟨_, fun st hst => attachEntry_ok env field st entry b h hst, hd, ?_, ?_, ?_, ?_, ?_⟩
  · show (if env.TypeByExtension (Ext (displayName field entry)) = "" then "text/plain"
      else env.TypeByExtension (Ext (displayName field entry))) = _
    rw [hd]
  · show (if env.TypeByExtension (Ext (displayName field entry)) = "" then "text/plain"
      else env.TypeByExtension (Ext (displayName field entry))) ≠ ""
    split
    · decide
    · assumption
  · rintro hpng ⟨stem, hstem⟩
    show (if env.TypeByExtension (Ext (displayName field entry)) = "" then "text/plain"
      else env.TypeByExtension (Ext (displayName field entry))) = "image/png"
    rw [hd, hstem, Ext_png, hpng]
    decide
  · intro hnone
    show (if env.TypeByExtension (Ext (displayName field entry)) = "" then "text/plain"
      else env.TypeByExtension (Ext (displayName field entry))) = "text/plain"
    rw [hd, if_pos hnone]
  · intro hempty hext
    show (if env.TypeByExtension (Ext (displayName field entry)) = "" then "text/plain"
      else env.TypeByExtension (Ext (displayName field entry))) = "text/plain"
    rw [hd, hext, if_pos hempty]

theorem mime_inference_witness :
    ∃ a, (∀ st : State, st.panicked = false →
          attached (attachEntry envPng "log" st ⟨"crash.png", .ok ⟨.ok [1, 2]⟩⟩).trace
            = attached st.trace ++ [a])
      ∧ a.Name = "crash.png" ∧ a.MimeType = "image/png" := by
  obtain ⟨a, hstep, hname, _, _, hpng, _⟩ :=
    mime_inference envPng "log" ⟨"crash.png", .ok ⟨.ok [1, 2]⟩⟩ [1, 2] rfl (by decide)
  exact ⟨a, hstep, hname, hpng rfl ⟨"crash", rfl⟩⟩

/-- C6: when `server.Connect()` fails with `e`, `sendMail` returns the error
`connection error: ` followed by the text of `e`, which unwraps to `e`, and
the connect call is the only call it has made: no file is read, nothing is
attached, and `email.Send` is not called. -/
theorem connection_failure (env : Env) (config : Config) (form : Form) (id : String)
    (e : GoError) (h : env.Connect (smtpServer config) = .error e) :
    (sendMail env config form id).err = some (Errorf "connection error: " e)
      ∧ (Errorf "connection error: " e).Unwrap = some e
      ∧ (Errorf "connection error: " e).Error = "connection error: " ++ e.Error
      ∧ (sendMail env config form id).trace = [Event.connect (smtpServer config)]
      ∧ reads (sendMail env config form id).trace = []
      ∧ attached (sendMail env config form id).trace = []
      ∧ sent (sendMail env config form id).trace = []
      ∧ (sendMail env config form id).panicked = false := by
  simp [sendMail, h, Errorf, GoError.Unwrap, GoError.Error, reads, attached, sent]

theorem connection_failure_witness :
    (sendMail envDown sampleConfig sampleForm "0A").err
        = some (Errorf "connection error: " (.errorString "dial tcp: connection refused"))
      ∧ sent (sendMail envDown sampleConfig sampleForm "0A").trace = [] :=
  have h := connection_failure envDown sampleConfig sampleForm "0A"
    (.errorString "dial tcp: connection refused") rfl
  ⟨h.1, h.2.2.2.2.2.2.1⟩

/-! ## The varint encoding -/

set_option maxRecDepth 8192 in
theorem or_high_bit (n : Nat) (h : n < 256) : n ||| 128 = n % 128 + 128 := by
  revert n
  decide

set_option maxRecDepth 8192 in
theorem and_low_nibble (n : Nat) (h : n < 256) : n &&& 15 = n % 16 := by
  revert n
  decide

theorem shiftRight_seven (x : Nat) : x >>> 7 = x / 128 := by
  simp [Nat.shiftRight_eq_div_pow]

theorem shiftRight_four (x : Nat) : x >>> 4 = x / 16 := by
  simp [Nat.shiftRight_eq_div_pow]

theorem continuation_byte (x : Nat) : (x % 256) ||| 0x80 = x % 128 + 128 := by
  rw [or_high_bit _ (Nat.mod_lt _ (by decide))]
  omega

theorem uvarintLoop_succ_ge (fuel : Nat) (buf : List Nat) (x : Nat) (h : 128 ≤ x) :
    uvarintLoop (fuel + 1) buf x = uvarintLoop fuel (buf ++ [x % 128 + 128]) (x / 128) := by
  simp only [uvarintLoop, h, if_true, continuation_byte, shiftRight_seven]

theorem uvarintLoop_lt (fuel : Nat) (buf : List Nat) (x : Nat) (h : x < 128) :
    uvarintLoop fuel buf x = buf ++ [x] := by
  have hm : x % 256 = x := Nat.mod_eq_of_lt (by omega)
  cases fuel with
  | zero => simp [uvarintLoop, hm]
  | succ n =>
    have hn : ¬ 128 ≤ x := by omega
    simp [uvarintLoop, hn, hm]

theorem uvarintLoop_append (fuel : Nat) (buf : List Nat) (x : Nat) :
    uvarintLoop fuel buf x = buf ++ uvarintLoop fuel [] x := by
  induction fuel generalizing buf x with
  | zero => simp [uvarintLoop]
  | succ n ih =>
    by_cases h : 128 ≤ x
    · rw [uvarintLoop_succ_ge n buf x h, uvarintLoop_succ_ge n [] x h, ih (buf ++ _),
        ih ([] ++ _)]
      simp
    · simp [uvarintLoop, h]

/-- Ten iterations are enough: for a value below `128 ^ (k + 1)` the loop
ends by its own test within `k` iterations, so any two bounds from `k` on
give the same bytes (for a `uint64`, `k = 9`). -/
theorem uvarintLoop_fuel (k fuel1 fuel2 : Nat) (buf : List Nat) (x : Nat)
    (h : x < 128 ^ (k + 1)) (h1 : k ≤ fuel1) (h2 : k ≤ fuel2) :
    uvarintLoop fuel1 buf x = uvarintLoop fuel2 buf x := by
  induction k generalizing fuel1 fuel2 buf x with
  | zero =>
    have hx : x < 128 := by simpa using h
    rw [uvarintLoop_lt fuel1 buf x hx, uvarintLoop_lt fuel2 buf x hx]
  | succ k ih =>
    by_cases hx : 128 ≤ x
    · obtain ⟨n1, rfl⟩ : ∃ n, fuel1 = n + 1 := ⟨fuel1 - 1, by omega⟩
      obtain ⟨n2, rfl⟩ : ∃ n, fuel2 = n + 1 := ⟨fuel2 - 1, by omega⟩
      have hdiv : x / 128 < 128 ^ (k + 1) := by
        rw [Nat.div_lt_iff_lt_mul (by decide)]
        calc x < 128 ^ (k + 1 + 1) := h
          _ = 128 ^ (k + 1) * 128 := by ring
      rw [uvarintLoop_succ_ge n1 buf x hx, uvarintLoop_succ_ge n2 buf x hx]
      exact ih n1 n2 _ _ hdiv (by omega) (by omega)
    · rw [uvarintLoop_lt fuel1 buf x (by omega), uvarintLoop_lt fuel2 buf x (by omega)]

theorem AppendUvarint_fuel (fuel : Nat) (buf : List Nat) (x : Nat) (h : x < 2 ^ 64)
    (hf : 10 ≤ fuel) : uvarintLoop fuel buf x = AppendUvarint buf x := by
  have hp : (128 : Nat) ^ (9 + 1) = 2 ^ 70 := by norm_num
  exact uvarintLoop_fuel 9 fuel 10 buf x (by omega) (by omega) (by decide)

theorem uvarintLoop_length_pos (fuel : Nat) (buf : List Nat) (x : Nat) :
    buf.length + 1 ≤ (uvarintLoop fuel buf x).length := by
  induction fuel generalizing buf x with
  | zero => simp [uvarintLoop]
  | succ n ih =>
    by_cases h : 128 ≤ x
    · rw [uvarintLoop_succ_ge n buf x h]
      have := ih (buf ++ [x % 128 + 128]) (x / 128)
      simp only [List.length_append, List.length_singleton] at this
      omega
    · simp [uvarintLoop, h]

theorem uvarintLoop_length_le (k fuel : Nat) (buf : List Nat) (x : Nat)
    (h : x < 128 ^ (k + 1)) : (uvarintLoop fuel buf x).length ≤ buf.length + k + 1 := by
  induction k generalizing fuel buf x with
  | zero =>
    rw [uvarintLoop_lt fuel buf x (by simpa using h)]
    simp
  | succ k ih =>
    cases fuel with
    | zero => simp [uvarintLoop]
    | succ n =>
      by_cases hx : 128 ≤ x
      · rw [uvarintLoop_succ_ge n buf x hx]
        have hdiv : x / 128 < 128 ^ (k + 1) := by
          rw [Nat.div_lt_iff_lt_mul (by decide)]
          calc x < 128 ^ (k + 1 + 1) := h
            _ = 128 ^ (k + 1) * 128 := by ring
        have := ih n (buf ++ [x % 128 + 128]) (x / 128) hdiv
        simp only [List.length_append, List.length_singleton] at this
        omega
      · simp [uvarintLoop, hx]

theorem uvarintLoop_length_ge (k fuel : Nat) (buf : List Nat) (x : Nat)
    (h : 128 ^ k ≤ x) (hf : k ≤ fuel) : buf.length + k + 1 ≤ (uvarintLoop fuel buf x).length := by
  induction k generalizing fuel buf x with
  | zero => exact uvarintLoop_length_pos fuel buf x
  | succ k ih =>
    cases fuel with
    | zero => omega
    | succ n =>
      have hx : 128 ≤ x := by
        calc 128 = 128 ^ 1 := by norm_num
          _ ≤ 128 ^ (k + 1) := Nat.pow_le_pow_right (by decide) (by omega)
          _ ≤ x := h
      rw [uvarintLoop_succ_ge n buf x hx]
      have hdiv : 128 ^ k ≤ x / 128 := by
        rw [Nat.le_div_iff_mul_le (by decide)]
        calc 128 ^ k * 128 = 128 ^ (k + 1) := by ring
          _ ≤ x := h
      have := ih n (buf ++ [x % 128 + 128]) (x / 128) hdiv (by omega)
      simp only [List.length_append, List.length_singleton] at this
      omega

theorem uvarintValue_loop (fuel : Nat) (x : Nat) (h : x < 128 ^ (fuel + 1)) :
    uvarintValue (uvarintLoop fuel [] x) = x := by
  induction fuel generalizing x with
  | zero =>
    rw [uvarintLoop_lt 0 [] x (by simpa using h)]
    simp only [List.nil_append, uvarintValue]
    have : x < 128 := by simpa using h
    omega
  | succ n ih =>
    by_cases hx : 128 ≤ x
    · have hdiv : x / 128 < 128 ^ (n + 1) := by
        rw [Nat.div_lt_iff_lt_mul (by decide)]
        calc x < 128 ^ (n + 1 + 1) := h
          _ = 128 ^ (n + 1) * 128 := by ring
      rw [uvarintLoop_succ_ge n [] x hx, uvarintLoop_append n ([] ++ [x % 128 + 128])]
      show uvarintValue ((x % 128 + 128) :: uvarintLoop n [] (x / 128)) = x
      rw [uvarintValue, ih _ hdiv]
      omega
    · rw [uvarintLoop_lt (n + 1) [] x (by omega)]
      simp only [List.nil_append, uvarintValue]
      omega

theorem uvarintLoop_bytes (fuel : Nat) (buf : List Nat) (x : Nat) (hb : ∀ b ∈ buf, b < 256) :
    ∀ b ∈ uvarintLoop fuel buf x, b < 256 := by
  induction fuel generalizing buf x with
  | zero =>
    intro b hmem
    simp only [uvarintLoop, List.mem_append, List.mem_singleton] at hmem
    rcases hmem with hmem | rfl
    · exact hb b hmem
    · exact Nat.mod_lt _ (by decide)
  | succ n ih =>
    by_cases hx : 128 ≤ x
    · rw [uvarintLoop_succ_ge n buf x hx]
      apply ih
      intro b hmem
      simp only [List.mem_append, List.mem_singleton] at hmem
      rcases hmem with hmem | rfl
      · exact hb b hmem
      · omega
    · intro b hmem
      simp only [uvarintLoop, hx, if_false, List.mem_append, List.mem_singleton] at hmem
      rcases hmem with hmem | rfl
      · exact hb b hmem
      · exact Nat.mod_lt _ (by decide)

/-- The zig-zag step of `AppendVarint` on a non-negative `int64`. -/
theorem AppendVarint_nonneg (buf : List Nat) (x : Int) (h0 : 0 ≤ x) (h1 : x < 2 ^ 63) :
    AppendVarint buf x = AppendUvarint buf (2 * x.toNat) := by
  have hneg : ¬ x < 0 := by omega
  have hux : (x % 2 ^ 64).toNat <<< 1 % 2 ^ 64 = 2 * x.toNat := by
    simp only [Nat.shiftLeft_eq]
    omega
  simp only [AppendVarint, hneg, if_false, hux]

theorem AppendVarint_bytes (x : Int) : ∀ b ∈ AppendVarint [] x, b < 256 := by
  simp only [AppendVarint, AppendUvarint]
  exact uvarintLoop_bytes _ _ _ (by simp)

/-! ## The hexadecimal text of the ID -/

theorem upper_digit_mem (n : Nat) : Char.toUpper (hextable.getD n '0') ∈ upperHex := by
  by_cases h : n < 16
  · revert n
    decide
  · have hlen : hextable.length ≤ n := by
      have : hextable.length = 16 := by decide
      omega
    rw [List.getD_eq_default _ _ hlen]
    decide

set_option maxRecDepth 8192 in
theorem upper_digit_inj : ∀ i, i < 16 → ∀ j, j < 16 →
    Char.toUpper (hextable.getD i '0') = Char.toUpper (hextable.getD j '0') → i = j := by
  decide

theorem ToUpper_EncodeToString_data (bs : List Nat) :
    (ToUpper (EncodeToString bs)).data = bs.flatMap fun v =>
      [Char.toUpper (hextable.getD (v >>> 4) '0'), Char.toUpper (hextable.getD (v &&& 0x0f) '0')] := by
  induction bs with
  | nil => rfl
  | cons b rest ih =>
    simp only [ToUpper, EncodeToString, List.flatMap_cons, List.map_append, List.map_cons,
      List.map_nil] at ih ⊢
    rw [ih]

theorem hexID_length (bs : List Nat) : (ToUpper (EncodeToString bs)).length = 2 * bs.length := by
  show (ToUpper (EncodeToString bs)).data.length = _
  rw [ToUpper_EncodeToString_data]
  induction bs with
  | nil => rfl
  | cons b rest ih =>
    simp only [List.flatMap_cons, List.length_append, List.length_cons, List.length_nil, ih]
    omega

theorem hexID_alphabet (bs : List Nat) : ∀ c ∈ (ToUpper (EncodeToString bs)).data, c ∈ upperHex := by
  rw [ToUpper_EncodeToString_data]
  intro c hc
  simp only [List.mem_flatMap, List.mem_cons, List.mem_singleton, List.not_mem_nil,
    or_false] at hc
  obtain ⟨b, _, rfl | rfl⟩ := hc
  · exact upper_digit_mem _
  · exact upper_digit_mem _

theorem hexID_injective (as bs : List Nat) (ha : ∀ b ∈ as, b < 256) (hb : ∀ b ∈ bs, b < 256)
    (h : ToUpper (EncodeToString as) = ToUpper (EncodeToString bs)) : as = bs := by
  have hd := congrArg String.data h
  rw [ToUpper_EncodeToString_data, ToUpper_EncodeToString_data] at hd
  clear h
  induction as generalizing bs with
  | nil =>
    cases bs with
    | nil => rfl
    | cons y ys => simp at hd
  | cons x xs ih =>
    cases bs with
    | nil => simp at hd
    | cons y ys =>
      simp only [List.flatMap_cons, List.cons_append, List.nil_append, List.cons.injEq] at hd
      obtain ⟨hhi, hlo, hrest⟩ := hd
      have hx : x < 256 := ha x (List.mem_cons_self _ _)
      have hy : y < 256 := hb y (List.mem_cons_self _ _)
      rw [shiftRight_four, shiftRight_four] at hhi
      rw [and_low_nibble x hx, and_low_nibble y hy] at hlo
      have h1 := upper_digit_inj (x / 16) (by omega) (y / 16) (by omega) hhi
      have h2 := upper_digit_inj (x % 16) (by omega) (y % 16) (by omega) hlo
      have hxy : x = y := by omega
      have hxs := ih ys (fun b hb2 => ha b (List.mem_cons_of_mem _ hb2))
        (fun b hb2 => hb b (List.mem_cons_of_mem _ hb2)) hrest
      rw [hxy, hxs]

/-! ## The submission ID -/

theorem uploadID_some (now r : Int) (spare : List Nat)
    (h : 4 ≤ (AppendVarint [] r).length + spare.length) :
    uploadID now r spare
      = some (ToUpper (EncodeToString (AppendVarint [] now ++ (AppendVarint [] r ++ spare).take 4))) := by
  simp [uploadID, sliceTo, h]

theorem uploadID_eq_some (now r : Int) (spare : List Nat) (id : String)
    (h : uploadID now r spare = some id) :
    4 ≤ (AppendVarint [] r).length + spare.length
      ∧ id = ToUpper (EncodeToString (AppendVarint [] now ++ (AppendVarint [] r ++ spare).take 4)) := by
  by_cases hc : 4 ≤ (AppendVarint [] r).length + spare.length
  · rw [uploadID_some now r spare hc] at h
    exact ⟨hc, (Option.some.inj h).symm⟩
  · simp [uploadID, sliceTo, hc] at h

theorem uploadID_long (now r : Int) (spare : List Nat) (h : 4 ≤ (AppendVarint [] r).length) :
    uploadID now r spare
      = some (ToUpper (EncodeToString (AppendVarint [] now ++ (AppendVarint [] r).take 4))) := by
  rw [uploadID_some now r spare (by omega), List.take_append_of_le_length h]

/-- Every ID the handler computes is a non-empty string of even length over
`0-9A-F`. -/
theorem uploadID_shape (now r : Int) (spare : List Nat) (id : String)
    (h : uploadID now r spare = some id) :
    id ≠ "" ∧ id.length = 2 * ((AppendVarint [] now).length + 4) ∧ ∀ c ∈ id.data, c ∈ upperHex := by
  obtain ⟨hcap, rfl⟩ := uploadID_eq_some now r spare id h
  have hlen : (ToUpper (EncodeToString
      (AppendVarint [] now ++ (AppendVarint [] r ++ spare).take 4))).length
      = 2 * ((AppendVarint [] now).length + 4) := by
    rw [hexID_length, List.length_append, List.length_take, List.length_append]
    omega
  refine ⟨?_, hlen, hexID_alphabet _⟩
  intro hempty
  rw [hempty] at hlen
  have : ("" : String).length = 0 := rfl
  omega

theorem AppendVarint_length_ge (k : Nat) (r : Int) (hk : k ≤ 10) (h0 : 0 ≤ r) (h1 : r < 2 ^ 63)
    (h : 128 ^ k ≤ 2 * r.toNat) : k + 1 ≤ (AppendVarint [] r).length := by
  rw [AppendVarint_nonneg [] r h0 h1, AppendUvarint]
  have := uvarintLoop_length_ge k 10 [] (2 * r.toNat) h hk
  simpa using this

theorem AppendVarint_length_le (k : Nat) (r : Int) (h0 : 0 ≤ r) (h1 : r < 2 ^ 63)
    (h : 2 * r.toNat < 128 ^ (k + 1)) : (AppendVarint [] r).length ≤ k + 1 := by
  rw [AppendVarint_nonneg [] r h0 h1, AppendUvarint]
  have := uvarintLoop_length_le k 10 [] (2 * r.toNat) h
  simpa using this

theorem AppendVarint_value (r : Int) (h0 : 0 ≤ r) (h1 : r < 2 ^ 63) :
    uvarintValue (AppendVarint [] r) = 2 * r.toNat := by
  rw [AppendVarint_nonneg [] r h0 h1, AppendUvarint]
  apply uvarintValue_loop
  have : (128 : Nat) ^ (10 + 1) = 2 ^ 77 := by norm_num
  omega

theorem AppendVarint_injective (t1 t2 : Int) (h1 : 0 ≤ t1) (h1' : t1 < 2 ^ 63) (h2 : 0 ≤ t2)
    (h2' : t2 < 2 ^ 63) (h : AppendVarint [] t1 = AppendVarint [] t2) : t1 = t2 := by
  have hv := congrArg uvarintValue h
  rw [AppendVarint_value t1 h1 h1', AppendVarint_value t2 h2 h2'] at hv
  omega

/-- C5: whenever the slice expression of line 140 stays within the capacity
of the encoded random value (as it does for every `r` from `2 ^ 20` on) the
handler computes an ID, and every ID it computes, for every time `now` and
every random value `r`, is a non-empty string of even length whose
characters are all among `0-9` and `A-F`, none of them a lowercase
letter. -/
theorem id_alphabet (now r : Int) (spare : List Nat) :
    (4 ≤ (AppendVarint [] r).length + spare.length → ∃ id, uploadID now r spare = some id)
      ∧ (2 ^ 20 ≤ r → r < 2 ^ 63 → ∃ id, uploadID now r spare = some id)
      ∧ ∀ id, uploadID now r spare = some id →
          id ≠ "" ∧ id.length % 2 = 0
            ∧ (∀ c ∈ id.data, c ∈ "0123456789ABCDEF".data)
            ∧ ∀ c ∈ id.data, c.isLower = false := by
  refine ⟨fun h => ⟨_, uploadID_some now r spare h⟩, fun h0 h1 => ?_, fun id hid => ?_⟩
  · have hlen := AppendVarint_length_ge 3 r (by decide) (by omega) h1 (by
      have : (128 : Nat) ^ 3 = 2 ^ 21 := by norm_num
      omega)
    exact ⟨_, uploadID_some now r spare (by omega)⟩
  · obtain ⟨hne, hlen, hall⟩ := uploadID_shape now r spare id hid
    refine ⟨hne, by omega, hall, fun c hc => ?_⟩
    have hupper : ∀ d ∈ upperHex, d.isLower = false := by decide
    exact hupper c (hall c hc)

theorem id_alphabet_witness :
    ∃ id, uploadID 1700000000 123456789012 [] = some id
      ∧ id ≠ "" ∧ id.length % 2 = 0 ∧ ∀ c ∈ id.data, c ∈ "0123456789ABCDEF".data := by
  have h := id_alphabet 1700000000 123456789012 []
  obtain ⟨id, hid⟩ := h.2.1 (by decide) (by decide)
  exact ⟨id, hid, (h.2.2 id hid).1, (h.2.2 id hid).2.1, (h.2.2 id hid).2.2.1⟩

/-- C9 as stated fails: the random value `0` is encoded in one byte, so the
slice `[0:4]` does not lie within the encoded bytes; it panics when the
backing array has no spare capacity and takes bytes that are not part of the
encoding otherwise. -/
theorem short_random_varint_counterexample :
    (0 : Int) ≤ 0 ∧ (0 : Int) < 2 ^ 63
      ∧ AppendVarint [] 0 = [0]
      ∧ ¬ 4 ≤ (AppendVarint [] 0).length
      ∧ uploadID 1700000000 0 [] = none
      ∧ uploadID 1700000000 0 [0, 0, 0, 0, 0, 0, 0] = some "80C49FD50C00000000" := by
  decide

/-- C9, amended: for a random value `r` in `[0, 2 ^ 63)` the varint encoding
has at least 4 bytes exactly when `2 ^ 20 ≤ r`; for such `r` the slice
`[0:4]` lies within the encoded bytes and has exactly 4 of them, whatever
the spare capacity, so for every time `now` the ID is the uppercase
hexadecimal text of `varint(now)` followed by the first 4 bytes of
`varint(r)`, of length `2 * (length of varint(now) + 4)`, which is 18 when
`2 ^ 27 ≤ now < 2 ^ 34`. -/
theorem random_component (r : Int) (h0 : 0 ≤ r) (h1 : r < 2 ^ 63) :
    (4 ≤ (AppendVarint [] r).length ↔ 2 ^ 20 ≤ r)
      ∧ (2 ^ 20 ≤ r → ∀ (now : Int) (spare : List Nat),
          sliceTo (AppendVarint [] r) spare 4 = some ((AppendVarint [] r).take 4)
            ∧ ((AppendVarint [] r).take 4).length = 4
            ∧ ∃ id, uploadID now r spare = some id
              ∧ id = ToUpper (EncodeToString (AppendVarint [] now ++ (AppendVarint [] r).take 4))
              ∧ id.length = 2 * ((AppendVarint [] now).length + 4)
              ∧ (2 ^ 27 ≤ now → now < 2 ^ 34 → id.length = 18)) := by
  have hpow3 : (128 : Nat) ^ 3 = 2 ^ 21 := by norm_num
  have hge : 2 ^ 20 ≤ r → 4 ≤ (AppendVarint [] r).length := fun h =>
    AppendVarint_length_ge 3 r (by decide) h0 h1 (by omega)
  refine ⟨⟨fun h => ?_, hge⟩, fun h now spare => ?_⟩
  · by_contra hlt
    have := AppendVarint_length_le 2 r h0 h1 (by omega)
    omega
  · have hlen := hge h
    have hid := uploadID_long now r spare hlen
    have hshape := uploadID_shape now r spare _ hid
    refine ⟨?_, ?_, _, hid, rfl, hshape.2.1, fun hn0 hn1 => ?_⟩
    · simp only [sliceTo]
      rw [if_pos (by omega), List.take_append_of_le_length hlen]
    · rw [List.length_take]
      omega
    · have hpow4 : (128 : Nat) ^ 4 = 2 ^ 28 := by norm_num
      have hpow5 : (128 : Nat) ^ (4 + 1) = 2 ^ 35 := by norm_num
      have hle := AppendVarint_length_le 4 now (by omega) (by omega) (by omega)
      have hge5 := AppendVarint_length_ge 4 now (by decide) (by omega) (by omega) (by omega)
      rw [hshape.2.1]
      omega

theorem random_component_witness :
    ∃ id, uploadID 1700000000 123456789012 [] = some id ∧ id.length = 18 := by
  obtain ⟨_, _, id, hid, _, _, hlen⟩ :=
    (random_component 123456789012 (by decide) (by decide)).2 (by decide) 1700000000 []
  exact ⟨id, hid, hlen (by decide) (by decide)⟩

/-! ## Collisions of IDs -/

theorem uvarintLoop_shape (fuel : Nat) (x : Nat) (h : x < 128 ^ (fuel + 1)) :
    ∃ init last, uvarintLoop fuel [] x = init ++ [last] ∧ (∀ b ∈ init, 128 ≤ b) ∧ last < 128 := by
  induction fuel generalizing x with
  | zero =>
    have hx : x < 128 := by simpa using h
    exact ⟨[], x, uvarintLoop_lt 0 [] x hx, by simp, hx⟩
  | succ n ih =>
    by_cases hx : 128 ≤ x
    · have hdiv : x / 128 < 128 ^ (n + 1) := by
        rw [Nat.div_lt_iff_lt_mul (by decide)]
        calc x < 128 ^ (n + 1 + 1) := h
          _ = 128 ^ (n + 1) * 128 := by ring
      obtain ⟨init, last, heq, hinit, hlast⟩ := ih (x / 128) hdiv
      refine ⟨(x % 128 + 128) :: init, last, ?_, ?_, hlast⟩
      · rw [uvarintLoop_succ_ge n [] x hx, uvarintLoop_append n ([] ++ [x % 128 + 128]), heq]
        rfl
      · intro b hb
        rcases List.mem_cons.mp hb with rfl | hb
        · omega
        · exact hinit b hb
    · exact ⟨[], x, uvarintLoop_lt (n + 1) [] x (by omega), by simp, by omega⟩

theorem shape_prefix_free (i1 i2 : List Nat) (a1 a2 : Nat)
    (h2 : ∀ b ∈ i2, 128 ≤ b) (ha1 : a1 < 128)
    (hp : List.IsPrefix (i1 ++ [a1]) (i2 ++ [a2])) : i1 ++ [a1] = i2 ++ [a2] := by
  obtain ⟨s, hs⟩ := hp
  rw [List.append_assoc] at hs
  rcases List.append_eq_append_iff.mp hs with ⟨c, hc1, hc2⟩ | ⟨c, hc1, hc2⟩
  · cases c with
    | nil =>
      simp only [List.nil_append, List.singleton_append, List.cons.injEq] at hc2
      rw [hc1, hc2.1]
      simp
    | cons x xs =>
      have : a1 ∈ i2 := by
        rw [hc1]
        have hx : x = a1 := by
          simp only [List.singleton_append, List.cons_append, List.cons.injEq] at hc2
          exact hc2.1.symm
        rw [hx]
        simp
      have := h2 a1 this
      omega
  · cases c with
    | nil =>
      simp only [List.nil_append, List.singleton_append, List.cons.injEq] at hc2
      rw [hc1, hc2.1]
      simp
    | cons x xs =>
      have hlen := congrArg List.length hc2
      simp only [List.length_singleton, List.length_append, List.length_cons] at hlen
      omega

/-- The varint encoding of non-negative `int64` values is a prefix-free
code. -/
theorem AppendVarint_prefix_free (t1 t2 : Int) (h1 : 0 ≤ t1) (h1' : t1 < 2 ^ 63) (h2 : 0 ≤ t2)
    (h2' : t2 < 2 ^ 63) (hp : List.IsPrefix (AppendVarint [] t1) (AppendVarint [] t2)) :
    t1 = t2 := by
  have hpow : (128 : Nat) ^ (10 + 1) = 2 ^ 77 := by norm_num
  apply AppendVarint_injective t1 t2 h1 h1' h2 h2'
  rw [AppendVarint_nonneg [] t1 h1 h1', AppendVarint_nonneg [] t2 h2 h2', AppendUvarint,
    AppendUvarint] at hp ⊢
  obtain ⟨i1, a1, e1, _, ha1⟩ := uvarintLoop_shape 10 (2 * t1.toNat) (by omega)
  obtain ⟨i2, a2, e2, hi2, _⟩ := uvarintLoop_shape 10 (2 * t2.toNat) (by omega)
  rw [e1, e2] at hp ⊢
  exact shape_prefix_free i1 i2 a1 a2 hi2 ha1 hp

theorem AppendUvarint_take_four (x : Nat) (h : 128 ^ 4 ≤ x) :
    (AppendUvarint [] x).take 4
      = [x % 128 + 128, x / 128 % 128 + 128, x / 128 / 128 % 128 + 128,
          x / 128 / 128 / 128 % 128 + 128] := by
  have hp : (128 : Nat) ^ 4 = 268435456 := by norm_num
  rw [AppendUvarint, uvarintLoop_succ_ge 9 _ x (by omega),
    uvarintLoop_succ_ge 8 _ (x / 128) (by omega),
    uvarintLoop_succ_ge 7 _ (x / 128 / 128) (by omega),
    uvarintLoop_succ_ge 6 _ (x / 128 / 128 / 128) (by omega), uvarintLoop_append]
  simp

theorem take_four_bytes (r : Int) : ∀ b ∈ (AppendVarint [] r).take 4, b < 256 :=
  fun b hb => AppendVarint_bytes r b (List.mem_of_mem_take hb)

theorem hexID_eq_iff (t1 t2 r1 r2 : Int) (h1 : 0 ≤ t1) (h1' : t1 < 2 ^ 63) (h2 : 0 ≤ t2)
    (h2' : t2 < 2 ^ 63) (hl1 : 4 ≤ (AppendVarint [] r1).length)
    (hl2 : 4 ≤ (AppendVarint [] r2).length) :
    ToUpper (EncodeToString (AppendVarint [] t1 ++ (AppendVarint [] r1).take 4))
        = ToUpper (EncodeToString (AppendVarint [] t2 ++ (AppendVarint [] r2).take 4))
      ↔ t1 = t2 ∧ (AppendVarint [] r1).take 4 = (AppendVarint [] r2).take 4 := by
  constructor
  · intro h
    have hbytes := hexID_injective _ _
      (fun b hb => (List.mem_append.mp hb).elim (AppendVarint_bytes t1 b) (take_four_bytes r1 b))
      (fun b hb => (List.mem_append.mp hb).elim (AppendVarint_bytes t2 b) (take_four_bytes r2 b))
      h
    have hlen : ((AppendVarint [] r1).take 4).length = ((AppendVarint [] r2).take 4).length := by
      rw [List.length_take, List.length_take]
      omega
    obtain ⟨hv, ht⟩ := List.append_inj' hbytes hlen
    exact ⟨AppendVarint_injective t1 t2 h1 h1' h2 h2' hv, ht⟩
  · rintro ⟨rfl, ht⟩
    rw [ht]

/-- C10: for times `t1`, `t2` and random values `r1`, `r2` in `[0, 2 ^ 63)`
whose varint encodings have at least 4 bytes, the two IDs are equal exactly
when `t1 = t2` and the first 4 bytes of the two random encodings are equal;
so IDs of different seconds differ (the time encoding is prefix-free), while
two random values from `2 ^ 27` on that agree in their low 27 bits give the
same ID in the same second, as `2 ^ 27` and `2 ^ 28` do. -/
theorem id_collision (t1 t2 r1 r2 : Int) (spare1 spare2 : List Nat)
    (ht1 : 0 ≤ t1) (ht1' : t1 < 2 ^ 63) (ht2 : 0 ≤ t2) (ht2' : t2 < 2 ^ 63)
    (hr1 : 0 ≤ r1) (hr1' : r1 < 2 ^ 63) (hr2 : 0 ≤ r2) (hr2' : r2 < 2 ^ 63)
    (hl1 : 4 ≤ (AppendVarint [] r1).length) (hl2 : 4 ≤ (AppendVarint [] r2).length) :
    (uploadID t1 r1 spare1 = uploadID t2 r2 spare2
        ↔ t1 = t2 ∧ (AppendVarint [] r1).take 4 = (AppendVarint [] r2).take 4)
      ∧ (∃ id1 id2, uploadID t1 r1 spare1 = some id1 ∧ uploadID t2 r2 spare2 = some id2
          ∧ (t1 ≠ t2 → id1 ≠ id2))
      ∧ (List.IsPrefix (AppendVarint [] t1) (AppendVarint [] t2) → t1 = t2)
      ∧ (2 ^ 27 ≤ r1 → 2 ^ 27 ≤ r2 → r1 % 2 ^ 27 = r2 % 2 ^ 27 →
          uploadID t1 r1 spare1 = uploadID t1 r2 spare2)
      ∧ ((2 : Int) ^ 27 ≠ 2 ^ 28
          ∧ ∃ id, uploadID t1 (2 ^ 27) spare1 = some id ∧ uploadID t1 (2 ^ 28) spare2 = some id) := by
  have hiff := hexID_eq_iff t1 t2 r1 r2 ht1 ht1' ht2 ht2' hl1 hl2
  have hlow : ∀ (a b : Int), 0 ≤ a → a < 2 ^ 63 → 0 ≤ b → b < 2 ^ 63 → 2 ^ 27 ≤ a →
      2 ^ 27 ≤ b → a % 2 ^ 27 = b % 2 ^ 27 →
      uploadID t1 a spare1 = uploadID t1 b spare2 := by
    intro a b ha ha' hb hb' hla hlb hmod
    have hp : (128 : Nat) ^ 4 = 2 ^ 28 := by norm_num
    have hp3 : (128 : Nat) ^ 3 = 2 ^ 21 := by norm_num
    have hta := AppendUvarint_take_four (2 * a.toNat) (by omega)
    have htb := AppendUvarint_take_four (2 * b.toNat) (by omega)
    have hlena := AppendVarint_length_ge 3 a (by decide) ha ha' (by omega)
    have hlenb := AppendVarint_length_ge 3 b (by decide) hb hb' (by omega)
    rw [uploadID_long t1 a spare1 hlena, uploadID_long t1 b spare2 hlenb,
      AppendVarint_nonneg [] a ha ha', AppendVarint_nonneg [] b hb hb', hta, htb]
    have e0 : 2 * a.toNat % 128 = 2 * b.toNat % 128 := by omega
    have e1 : 2 * a.toNat / 128 % 128 = 2 * b.toNat / 128 % 128 := by omega
    have e2 : 2 * a.toNat / 128 / 128 % 128 = 2 * b.toNat / 128 / 128 % 128 := by omega
    have e3 : 2 * a.toNat / 128 / 128 / 128 % 128 = 2 * b.toNat / 128 / 128 / 128 % 128 := by
      omega
    rw [e0, e1, e2, e3]
  refine ⟨?_, ?_, AppendVarint_prefix_free t1 t2 ht1 ht1' ht2 ht2', ?_, ?_⟩
  · rw [uploadID_long t1 r1 spare1 hl1, uploadID_long t2 r2 spare2 hl2, Option.some.injEq]
    exact hiff
  · exact ⟨_, _, uploadID_long t1 r1 spare1 hl1, uploadID_long t2 r2 spare2 hl2,
      fun hne heq => hne (hiff.mp heq).1⟩
  · exact hlow r1 r2 hr1 hr1' hr2 hr2'
  · have hsame := hlow (2 ^ 27) (2 ^ 28) (by norm_num) (by norm_num) (by norm_num) (by norm_num)
      (by norm_num) (by norm_num) (by norm_num)
    have hlen : 4 ≤ (AppendVarint [] (2 ^ 27)).length := by decide
    have hsome := uploadID_long t1 (2 ^ 27) spare1 hlen
    exact ⟨by decide, _, hsome, hsame ▸ hsome⟩

theorem id_collision_witness :
    (2 : Int) ^ 27 ≠ 2 ^ 28
      ∧ ∃ id, uploadID 1700000000 (2 ^ 27) [] = some id
        ∧ uploadID 1700000000 (2 ^ 28) [] = some id :=
  (id_collision 1700000000 1700000001 (2 ^ 27) (2 ^ 28) [] [] (by decide) (by decide)
    (by decide) (by decide) (by decide) (by decide) (by decide) (by decide) (by decide)
    (by decide)).2.2.2.2

/-! ## Outcomes of `sendMail` and of the handler -/

/-- C8 fails on the code.  With `sampleForm`, which has an unreadable file
entry, connect succeeds, the composed message carries no error and send
would succeed, so the claim has `sendMail` return `nil` after one send.  The
failed read reaches `logger.Warn` on the package-level logger, which is the
zero value, and the call panics: `sendMail` returns neither `nil` nor one of
its three errors, and `email.Send` is never called. -/
theorem dispatch_outcome_failing_input :
    (entries sampleForm).any readFails = true
      ∧ (∃ client, envPng.Connect (smtpServer sampleConfig) = .ok client
          ∧ envPng.Send (composed envPng sampleConfig sampleForm "0A") client = none)
      ∧ envPng.EmailError (composed envPng sampleConfig sampleForm "0A") = none
      ∧ (sendMail envPng sampleConfig sampleForm "0A").panicked = true
      ∧ sent (sendMail envPng sampleConfig sampleForm "0A").trace = []
      ∧ respond envPng sampleConfig sampleForm "0A" = none :=
  ⟨by decide, ⟨⟨smtpServer sampleConfig⟩, rfl, rfl⟩, rfl, by decide, by decide, rfl⟩

/-- C7: once the form is parsed and the ID `id` generated, the handler
answers from the outcome of `sendMail` alone: status 200 with body `id` when
it returns `nil`; when it returns an error, whichever it is, status 500 and
the same fixed message (followed by the newline of `http.Error`), a text in
which neither the error text nor the ID occurs, the error itself going to
the log.  When `sendMail` does not return because it panics, the handler
writes nothing. -/
theorem http_outcome (env : Env) (config : Config) (form : Form) (now r : Int)
    (spare : List Nat) (id : String) (hid : uploadID now r spare = some id) :
    uploadHandler env config (.ok form) now r spare = respond env config form id
      ∧ ((sendMail env config form id).panicked = false →
          (sendMail env config form id).err = none →
          respond env config form id
            = some (⟨200, id⟩, (sendMail env config form id).trace))
      ∧ (∀ err, (sendMail env config form id).panicked = false →
          (sendMail env config form id).err = some err →
          respond env config form id
              = some (⟨500, "failed submitting crash report because of a server error\n"⟩,
                  (sendMail env config form id).trace
                    ++ [Event.logError "sending error failed" err])
            ∧ ¬ List.IsInfix err.Error.data
                "failed submitting crash report because of a server error\n".data
            ∧ ¬ List.IsInfix id.data
                "failed submitting crash report because of a server error\n".data)
      ∧ ((sendMail env config form id).panicked = true →
          respond env config form id = none) := by
  refine ⟨by simp [uploadHandler, hid], fun hp hnone => ?_, fun err hp herr => ?_, fun hp => ?_⟩
  · simp [respond, hp, hnone]
  · refine ⟨?_, ?_, ?_⟩
    · simp only [respond, hp, herr]
      rfl
    · intro hsub
      have hmem := hsub.subset (sendMail_error_colon env config form id err herr)
      revert hmem
      decide
    · intro hsub
      obtain ⟨hne, _, hall⟩ := uploadID_shape now r spare id hid
      cases hdata : id.data with
      | nil => exact hne (String.ext hdata)
      | cons c cs =>
        have hc : c ∈ id.data := by simp [hdata]
        have hmem := hsub.subset hc
        have hupper := hall c hc
        have hnot : ∀ d ∈ upperHex,
            d ∉ "failed submitting crash report because of a server error\n".data := by
          decide
        exact hnot c hupper hmem
  · simp [respond, hp]

theorem http_outcome_witness :
    uploadHandler envPng sampleConfig (.ok readableForm) 1700000000 (2 ^ 27) []
        = some (⟨200, "80C49FD50C80808080"⟩,
            (sendMail envPng sampleConfig readableForm "80C49FD50C80808080").trace)
      ∧ (respond envRejecting sampleConfig readableForm "80C49FD50C80808080").map Prod.fst
        = some ⟨500, "failed submitting crash report because of a server error\n"⟩ :=
  have h := http_outcome envPng sampleConfig readableForm 1700000000 (2 ^ 27) []
    "80C49FD50C80808080" (by decide)
  have h2 := http_outcome envRejecting sampleConfig readableForm 1700000000 (2 ^ 27) []
    "80C49FD50C80808080" (by decide)
  ⟨h.1.trans (h.2.1 (by decide) (by rfl)),
    by rw [(h2.2.2.1 (.wrapError "send error: 550 mailbox unavailable"
      (.errorString "550 mailbox unavailable")) (by decide) (by rfl)).1]; rfl⟩

end CrashCollector
